import Mathlib

/-!
Verification of the MintSim simulation engine core: a shallow embedding of the
signal/bus wiring layer, the reference binding operations, the simulation
clock, the scheduler call sequence, the fixed-step integrators, and the
composite (subsystem) model, together with theorems settling the behavioural
claims about them.

Rust `f64` scalars are modelled as exact rationals, the shared value cells
(`Rc<RefCell<SigCore>>`) as cell identifiers into an explicit store, mutation
as functional state passing, `panic!` as an `Option`-valued outcome (`none`),
and `anyhow::Result` as `Except String`.
-/

/-- The heap of shared signal value cells: cell identifier to current value.
Models the collection of all `Rc<RefCell<SigCore>>` cells. -/
abbrev Store := ℕ → ℚ

/-- Write value `v` into cell `c` of the store (a `RefCell` borrow_mut write). -/
def updStore (st : Store) (c : ℕ) (v : ℚ) : Store :=
  fun n => if n = c then v else st n

/-- Rust `SigDef`: immutable (signal name, unit) pair, from signal.rs. -/
structure SigDef where
  name : String
  unit : String
deriving DecidableEq

/-- Rust `Signal`: an owned value cell. The `Rc<RefCell<SigCore>>` is modelled as
the identifier `cell` of the cell it owns; name and unit are carried along. -/
structure Signal where
  name : String
  unit : String
  cell : ℕ
deriving DecidableEq

/-- Current value of a `Signal` (`SigCore::val` through the borrow). -/
def Signal.val (s : Signal) (st : Store) : ℚ := st s.cell

/-- Rust `Signal::set_val`. -/
def Signal.set_val (s : Signal) (st : Store) (v : ℚ) : Store :=
  updStore st s.cell v

/-- Rust `RefSignal`: a named reference slot with an optional binding to a remote
value cell (`sig: Option<Rc<RefCell<SigCore>>>`). -/
structure RefSignal where
  name : String
  unit : String
  sig : Option ℕ
deriving DecidableEq

/-- Rust `RefSignal::val`: reads the bound cell; `none` models the `panic!` branch
taken when the slot was never bound (an unrecoverable hard failure, not a
returned error value). -/
def RefSignal.val (r : RefSignal) (st : Store) : Option ℚ :=
  Option.map st r.sig

/-- Rust `RefSignal::connect_to`: fails (mutating nothing) when the slot is already
bound, otherwise stores the source cell. Returned pair is (result, new slot
state), mirroring `&mut self` mutation. -/
def RefSignal.connect_to (r : RefSignal) (srcCell : ℕ) (srcName : String) :
    Except String Unit × RefSignal :=
  if r.sig.isSome then
    (Except.error ("already connected: " ++ r.name ++ " <- " ++ srcName), r)
  else
    (Except.ok (), { r with sig := some srcCell })

/-- Rust `RefSignal::is_connected`. -/
def RefSignal.is_connected (r : RefSignal) : Bool := r.sig.isSome

/-- Rust `RefSignal::disconnect`. -/
def RefSignal.disconnect (r : RefSignal) : RefSignal := { r with sig := none }

/-- The `SigTrait` interface: name access plus access to the underlying shared
cell. `sig` returns `none` exactly when the Rust `sig()` accessor would panic
(unwrap of an unbound `RefSignal`). -/
class SigTrait (T : Type) where
  name : T → String
  sig : T → Option ℕ

instance : SigTrait Signal where
  name := Signal.name
  sig := fun s => some s.cell

instance : SigTrait RefSignal where
  name := RefSignal.name
  sig := RefSignal.sig

/-- Rust `BusCore<T>`: ordered signal list plus the name-to-index `keytable`
(the `HashMap<String, usize>` modelled as an association list). -/
structure BusCore (T : Type) where
  signals : List T
  keytable : List (String × ℕ)
deriving DecidableEq

/-- Rust `Bus = BusCore<Signal>`. -/
abbrev Bus := BusCore Signal

/-- Rust `RefBus = BusCore<RefSignal>`. -/
abbrev RefBus := BusCore RefSignal

/-- Rust `HashMap::get` on the keytable. -/
def lookupKey : List (String × ℕ) → String → Option ℕ
  | [], _ => none
  | (k, v) :: rest, n => if k = n then some v else lookupKey rest n

/-- Rust `HashMap::contains_key` on the keytable. -/
def containsKey (kt : List (String × ℕ)) (n : String) : Bool :=
  (lookupKey kt n).isSome

/-- Rust `BusCore::push`: rejects a duplicate name, otherwise records
name-to-index and appends the signal. Pair of (result, bus after the call). -/
def BusCore.push {T : Type} [SigTrait T] (self : BusCore T) (signal : T) :
    Except String Unit × BusCore T :=
  if containsKey self.keytable (SigTrait.name signal) then
    (Except.error ("duplicate signal name: " ++ SigTrait.name signal), self)
  else
    (Except.ok (),
      { signals := self.signals ++ [signal],
        keytable := (SigTrait.name signal, self.signals.length) :: self.keytable })

/-- Rust `BusCore::get_by_name`: keytable lookup followed by indexing. -/
def BusCore.get_by_name {T : Type} (self : BusCore T) (signame : String) : Option T :=
  match lookupKey self.keytable signame with
  | some index => self.signals.get? index
  | none => none

/-- Rust `BusCore::len`. -/
def BusCore.len {T : Type} (self : BusCore T) : ℕ := self.signals.length

/-- Replace the slot at index `i` of a reference bus (the in-place mutation
performed through `get_by_name_mut`). -/
def setSlot (self : RefBus) (i : ℕ) (slot : RefSignal) : RefBus :=
  { self with signals := self.signals.set i slot }

/-- Outcome of `RefBus::connect_to`, keeping the structure of the consolidated
error: `notFound dsts srcs` lists the unresolved destination and source names,
`alreadyBound` is the immediate per-slot rebinding error, `panicked` marks the
paths where the Rust code would panic (indexing or unwrap faults). -/
inductive COut where
  | lenMismatch : COut
  | alreadyBound : String → String → COut
  | notFound : List String → List String → COut
  | panicked : COut
  | ok : COut
deriving DecidableEq

/-- The per-pair loop of `RefBus::connect_to`: resolves each (source name,
destination name) pair in order, binding as it goes, accumulating the
not-found name lists, and aborting at once on an already-bound destination. -/
def connectLoop {T : Type} [SigTrait T] (srcbus : BusCore T) :
    RefBus → List (String × String) → List String → List String → COut × RefBus
  | self, [], nfSrc, nfDst =>
    if nfSrc.length > 0 ∨ nfDst.length > 0 then (COut.notFound nfDst nfSrc, self)
    else (COut.ok, self)
  | self, (srcName, dstName) :: rest, nfSrc, nfDst =>
    match srcbus.get_by_name srcName with
    | some s =>
      match lookupKey self.keytable dstName with
      | some i =>
        match self.signals.get? i with
        | some slot =>
          match slot.sig with
          | some _ => (COut.alreadyBound dstName (SigTrait.name s), self)
          | none =>
            match SigTrait.sig s with
            | some c => connectLoop srcbus (setSlot self i { slot with sig := some c }) rest nfSrc nfDst
            | none => (COut.panicked, self)
        | none => (COut.panicked, self)
      | none => connectLoop srcbus self rest nfSrc (nfDst ++ [dstName])
    | none => connectLoop srcbus self rest (nfSrc ++ [srcName]) nfDst

/-- Rust `RefBus::connect_to`: length precondition first, then the resolution loop
over the zipped name pairs with empty not-found accumulators. -/
def RefBus.connect_to {T : Type} [SigTrait T] (self : RefBus) (srcbus : BusCore T)
    (srclist dstlist : List String) : COut × RefBus :=
  if srclist.length ≠ dstlist.length then (COut.lenMismatch, self)
  else connectLoop srcbus self (srclist.zip dstlist) [] []

/-- Rust `RefBus::disconnect`. -/
def RefBus.disconnect (self : RefBus) (signame : String) : Except String Unit × RefBus :=
  match lookupKey self.keytable signame with
  | some i =>
    match self.signals.get? i with
    | some slot => (Except.ok (), setSlot self i slot.disconnect)
    | none => (Except.ok (), self)
  | none => (Except.error ("signal not found: " ++ signame), self)

/-- Vector addition on state vectors (`DMatrix` addition, pointwise). -/
def vadd (a b : ℕ → ℚ) : ℕ → ℚ := fun i => a i + b i

/-- Scalar multiplication of a state vector (`DMatrix * f64`). -/
def smul (c : ℚ) (a : ℕ → ℚ) : ℕ → ℚ := fun i => c * a i

/-- Division of a state vector by a scalar (`DMatrix / f64`). -/
def vdiv (a : ℕ → ℚ) (c : ℚ) : ℕ → ℚ := fun i => a i / c

/-- Rust `DEModel::euler_method`: one explicit Euler step. The derivative function
`f` takes the frozen input snapshot `u` and the state; the model's input bus
does not change during the step. -/
def euler_method {I : Type} (f : I → (ℕ → ℚ) → (ℕ → ℚ)) (u : I) (delta_t : ℚ)
    (x : ℕ → ℚ) : ℕ → ℚ :=
  vadd x (smul delta_t (f u x))

/-- Rust `DEModel::rungekutta_method`: one classical fourth-order Runge-Kutta step,
with every stage evaluating `f` at the same frozen input snapshot `u`. -/
def rungekutta_method {I : Type} (f : I → (ℕ → ℚ) → (ℕ → ℚ)) (u : I) (delta_t : ℚ)
    (x : ℕ → ℚ) : ℕ → ℚ :=
  let d1 := smul delta_t (f u x)
  let d2 := smul delta_t (f u (vadd x (vdiv d1 2)))
  let d3 := smul delta_t (f u (vadd x (vdiv d2 2)))
  let d4 := smul delta_t (f u (vadd x d3))
  vadd x (vdiv (vadd d1 (vadd (smul 2 d2) (vadd (smul 2 d3) d4))) 6)

/-- C5: once a reference slot is bound to some cell, a further connect call on
it fails with an error, the slot keeps its original binding, and a read
through the slot after the failed call still returns the originally bound
cell's value. -/
theorem refsignal_reconnect_fails (r : RefSignal) (c0 : ℕ) (h : r.sig = some c0)
    (cNew : ℕ) (srcName : String) :
    (r.connect_to cNew srcName).1 =
        Except.error ("already connected: " ++ r.name ++ " <- " ++ srcName)
    ∧ (r.connect_to cNew srcName).2 = r
    ∧ ∀ st : Store, ((r.connect_to cNew srcName).2).val st = some (st c0) := by
  unfold RefSignal.connect_to
  simp [h, RefSignal.val]

/-- Witness for C5 at the concrete slot ("b", "-", bound to cell 3). -/
theorem refsignal_reconnect_fails_witness :
    ((RefSignal.mk "b" "-" (some 3)).connect_to 7 "a").1 =
        Except.error ("already connected: " ++ (RefSignal.mk "b" "-" (some 3)).name ++ " <- " ++ "a")
    ∧ ((RefSignal.mk "b" "-" (some 3)).connect_to 7 "a").2 = RefSignal.mk "b" "-" (some 3)
    ∧ ∀ st : Store, (((RefSignal.mk "b" "-" (some 3)).connect_to 7 "a").2).val st = some (st 3) :=
  refsignal_reconnect_fails (RefSignal.mk "b" "-" (some 3)) 3 rfl 7 "a"

/-- C8: reading a reference slot that is not bound is the hard-failure
(`panic!`) branch, modelled as `none`: for every store it never produces a
scalar and offers no recoverable error value. -/
theorem refsignal_val_unbound_panics (r : RefSignal) (h : r.sig = none) :
    ∀ st : Store, r.val st = none := by
  intro st
  simp [RefSignal.val, h]

/-- Witness for C8 at the concrete never-bound slot ("b", "-") and the zero
store. -/
theorem refsignal_val_unbound_panics_witness :
    (RefSignal.mk "b" "-" none).val (fun _ => 0) = none :=
  refsignal_val_unbound_panics (RefSignal.mk "b" "-" none) rfl (fun _ => 0)

/-- C9: a connect call whose source and destination name lists have different
lengths fails with the length-mismatch error before any resolution: the
returned bus is exactly the pre-call bus, whatever the listed names are. -/
theorem connect_to_length_mismatch {T : Type} [SigTrait T] (self : RefBus)
    (srcbus : BusCore T) (srclist dstlist : List String)
    (h : srclist.length ≠ dstlist.length) :
    self.connect_to srcbus srclist dstlist = (COut.lenMismatch, self) := by
  unfold RefBus.connect_to
  simp [h]

/-- Witness for C9: two source names against one destination name. -/
theorem connect_to_length_mismatch_witness :
    RefBus.connect_to (BusCore.mk [RefSignal.mk "r1" "A" none] [("r1", 0)])
        (BusCore.mk [Signal.mk "s1" "A" 0] [("s1", 0)] : Bus) ["s1", "s2"] ["r1"] =
      (COut.lenMismatch, (BusCore.mk [RefSignal.mk "r1" "A" none] [("r1", 0)] : RefBus)) :=
  connect_to_length_mismatch _ _ ["s1", "s2"] ["r1"] (by decide)

/-- C6: pushing a fresh name succeeds and `get_by_name` with that name then
returns the just-pushed entry; pushing a duplicate name fails with the
duplicate-name error and returns the bus unchanged (same signals, same
keytable). -/
theorem push_then_get_by_name {T : Type} [SigTrait T] (self : BusCore T) (s : T) :
    (containsKey self.keytable (SigTrait.name s) = false →
      (self.push s).1 = Except.ok ()
      ∧ (self.push s).2.get_by_name (SigTrait.name s) = some s)
    ∧ (containsKey self.keytable (SigTrait.name s) = true →
      self.push s = (Except.error ("duplicate signal name: " ++ SigTrait.name s), self)) := by
  constructor
  · intro h
    unfold BusCore.push
    simp only [h, Bool.false_eq_true, if_false]
    refine ⟨trivial, ?_⟩
    unfold BusCore.get_by_name
    simp [lookupKey, List.get?_eq_getElem?, List.getElem?_concat_length]
  · intro h
    unfold BusCore.push
    simp [h]

/-- Witness for C6: pushing ("a", "A") onto the empty bus and reading it back,
and pushing a duplicate of "a" onto a one-signal bus, which fails and leaves
the bus unchanged. -/
theorem push_then_get_by_name_witness :
    (((BusCore.mk ([] : List Signal) []).push (Signal.mk "a" "A" 0)).1 = Except.ok ()
      ∧ ((BusCore.mk ([] : List Signal) []).push (Signal.mk "a" "A" 0)).2.get_by_name "a" =
          some (Signal.mk "a" "A" 0))
    ∧ (BusCore.mk [Signal.mk "a" "A" 0] [("a", 0)]).push (Signal.mk "a" "B" 1) =
        (Except.error ("duplicate signal name: " ++ "a"),
         BusCore.mk [Signal.mk "a" "A" 0] [("a", 0)]) :=
  ⟨(push_then_get_by_name (BusCore.mk [] []) (Signal.mk "a" "A" 0)).1 (by decide),
   (push_then_get_by_name (BusCore.mk [Signal.mk "a" "A" 0] [("a", 0)])
      (Signal.mk "a" "B" 1)).2 (by decide)⟩

/-- One explicit Euler step as the spec states it: `x + f(x)·Δt`, pointwise. -/
def euler_spec_form {I : Type} (f : I → (ℕ → ℚ) → (ℕ → ℚ)) (u : I) (delta_t : ℚ)
    (x : ℕ → ℚ) : ℕ → ℚ :=
  fun i => x i + f u x i * delta_t

/-- One Runge-Kutta step as the spec states it: the standard four-stage
combination with `k1 = f(x)`, `k2 = f(x + k1·Δt/2)`, `k3 = f(x + k2·Δt/2)`,
`k4 = f(x + k3·Δt)` and `x + (k1 + 2k2 + 2k3 + k4)·Δt/6`, every stage reading
the same frozen input snapshot `u`. -/
def rk4_spec_form {I : Type} (f : I → (ℕ → ℚ) → (ℕ → ℚ)) (u : I) (delta_t : ℚ)
    (x : ℕ → ℚ) : ℕ → ℚ :=
  let k1 := f u x
  let k2 := f u (fun i => x i + k1 i * delta_t / 2)
  let k3 := f u (fun i => x i + k2 i * delta_t / 2)
  let k4 := f u (fun i => x i + k3 i * delta_t)
  fun i => x i + (k1 i + 2 * k2 i + 2 * k3 i + k4 i) * delta_t / 6

/-- C3: the Euler stepper computes exactly `x + f(x)·Δt` and the Runge-Kutta
stepper computes exactly the standard four-stage combination, with `f`
evaluated at the same frozen input snapshot `u` in all four stages. -/
theorem integrator_step_formulas {I : Type} (f : I → (ℕ → ℚ) → (ℕ → ℚ)) (u : I)
    (delta_t : ℚ) (x : ℕ → ℚ) :
    euler_method f u delta_t x = euler_spec_form f u delta_t x
    ∧ rungekutta_method f u delta_t x = rk4_spec_form f u delta_t x := by
  constructor
  · funext i
    simp only [euler_method, euler_spec_form, vadd, smul]
    ring
  · have half : ∀ k : ℕ → ℚ, vadd x (vdiv (smul delta_t k) 2) =
        (fun i => x i + k i * delta_t / 2) := by
      intro k; funext i; simp only [vadd, vdiv, smul]; ring
    have full : ∀ k : ℕ → ℚ, vadd x (smul delta_t k) =
        (fun i => x i + k i * delta_t) := by
      intro k; funext i; simp only [vadd, smul]; ring
    simp only [rungekutta_method, rk4_spec_form, half, full]
    funext i
    simp only [vadd, vdiv, smul]
    ring

/-- C1 counterexample: a failed connect call does retain bindings made during
the call. Bus `a` holds the single signal `s1` (cell 0); the reference bus
holds unbound slots `r1`, `r2`. Connecting `["s1", "zz"] -> ["r1", "r2"]`
fails (source `zz` is unknown, and the error consolidates it), yet slot `r1`
comes out of the failed call bound to cell 0 instead of staying unbound. -/
theorem connect_to_retains_partial_bindings_cex :
    (RefBus.connect_to
        (BusCore.mk [RefSignal.mk "r1" "A" none, RefSignal.mk "r2" "A" none]
          [("r1", 0), ("r2", 1)])
        (BusCore.mk [Signal.mk "s1" "A" 0] [("s1", 0)] : Bus)
        ["s1", "zz"] ["r1", "r2"]).1 = COut.notFound [] ["zz"]
    ∧ ((RefBus.connect_to
        (BusCore.mk [RefSignal.mk "r1" "A" none, RefSignal.mk "r2" "A" none]
          [("r1", 0), ("r2", 1)])
        (BusCore.mk [Signal.mk "s1" "A" 0] [("s1", 0)] : Bus)
        ["s1", "zz"] ["r1", "r2"]).2).get_by_name "r1" =
      some (RefSignal.mk "r1" "A" (some 0)) := by decide

/-- Rust `SimTime`: the simulation clock state from sim_system.rs. -/
structure SimTime where
  time : ℚ
  step : ℕ
  delta_t : ℚ
  start_time : ℚ
  end_time : ℚ
deriving DecidableEq

/-- Rust `SimTime::new(start_time, end_time, delta_t)`. -/
def SimTime.new (start_time end_time delta_t : ℚ) : SimTime :=
  { time := start_time, step := 0, delta_t := delta_t,
    start_time := start_time, end_time := end_time }

/-- Rust `SimTime::reset`. -/
def SimTime.reset (s : SimTime) : SimTime :=
  { s with step := 0, time := s.start_time }

/-- Rust `SimTime::nextstate`: advance the clock by one step. -/
def SimTime.nextstate (s : SimTime) : SimTime :=
  { s with time := s.time + s.delta_t, step := s.step + 1 }

/-- Rust `Iterator::next` for `SimTime`: while `time < end_time`, advance and yield
`(step, time)`; otherwise the sequence is exhausted. -/
def SimTime.next (s : SimTime) : Option ((ℕ × ℚ) × SimTime) :=
  if s.time < s.end_time then
    some (((s.nextstate).step, (s.nextstate).time), s.nextstate)
  else none

/-- The clock state after `n` calls of `next`; `none` once the iterator has
reported exhaustion. -/
def stateAfter : SimTime → ℕ → Option SimTime
  | s, 0 => some s
  | s, n + 1 =>
    match s.next with
    | none => none
    | some (_, s2) => stateAfter s2 n

/-- The clock's tick sequence is finite: some number of `next` calls reaches
exhaustion. -/
def SimTime.terminates (s : SimTime) : Prop := ∃ n, stateAfter s n = none

/-- Number of ticks the clock will still produce (for a positive step size):
the ceiling of the remaining time over the step size. -/
def ticksOf (s : SimTime) : ℕ := (Int.ceil ((s.end_time - s.time) / s.delta_t)).toNat

lemma ticksOf_eq_zero {s : SimTime} (hd : 0 < s.delta_t) (h : ¬ s.time < s.end_time) :
    ticksOf s = 0 := by
  have hq : (s.end_time - s.time) / s.delta_t ≤ 0 := by
    rw [div_nonpos_iff]
    right
    exact ⟨by linarith, le_of_lt hd⟩
  have hc : (Int.ceil ((s.end_time - s.time) / s.delta_t)) ≤ 0 :=
    Int.ceil_le.mpr (by exact_mod_cast hq)
  unfold ticksOf
  omega

lemma ticksOf_pos {s : SimTime} (hd : 0 < s.delta_t) (h : s.time < s.end_time) :
    1 ≤ ticksOf s := by
  have hq : 0 < (s.end_time - s.time) / s.delta_t := div_pos (by linarith) hd
  have hc : 0 < Int.ceil ((s.end_time - s.time) / s.delta_t) := Int.ceil_pos.mpr hq
  unfold ticksOf
  omega

lemma ticksOf_nextstate {s : SimTime} (hd : 0 < s.delta_t) (h : s.time < s.end_time) :
    ticksOf s.nextstate = ticksOf s - 1 := by
  have hne : s.delta_t ≠ 0 := ne_of_gt hd
  have harg : (s.end_time - (s.time + s.delta_t)) / s.delta_t =
      (s.end_time - s.time) / s.delta_t - 1 := by
    field_simp
    ring
  have hc : 0 < Int.ceil ((s.end_time - s.time) / s.delta_t) :=
    Int.ceil_pos.mpr (div_pos (by linarith) hd)
  unfold ticksOf SimTime.nextstate
  simp only [harg, Int.ceil_sub_one]
  omega

lemma stateAfter_none : ∀ (n : ℕ) (s : SimTime), 0 < s.delta_t → ticksOf s ≤ n →
    stateAfter s (n + 1) = none := by
  intro n
  induction n with
  | zero =>
    intro s hd hn
    by_cases h : s.time < s.end_time
    · exact absurd hn (by have := ticksOf_pos hd h; omega)
    · simp [stateAfter, SimTime.next, h]
  | succ n ih =>
    intro s hd hn
    by_cases h : s.time < s.end_time
    · have hstep : stateAfter s (n + 1 + 1) = stateAfter s.nextstate (n + 1) := by
        simp [stateAfter, SimTime.next, h]
      rw [hstep]
      refine ih s.nextstate hd ?_
      have := ticksOf_nextstate hd h
      omega
    · simp [stateAfter, SimTime.next, h]

/-- C7 amended: for every clock whose step size is positive, the tick sequence
is finite (iterating reaches exhaustion), and `reset` restores exactly the
freshly-constructed clock state, so the same finite sequence is produced
again. -/
theorem simtime_finite_of_pos_delta (st en dt : ℚ) (hd : 0 < dt) :
    (SimTime.new st en dt).terminates
    ∧ ∀ s : SimTime, s.reset = SimTime.new s.start_time s.end_time s.delta_t := by
  constructor
  · exact ⟨ticksOf (SimTime.new st en dt) + 1,
      stateAfter_none (ticksOf (SimTime.new st en dt)) (SimTime.new st en dt) hd (le_refl _)⟩
  · intro s
    rfl

/-- Witness for C7 (amended) at the concrete clock new(0, 10, 1). -/
theorem simtime_finite_of_pos_delta_witness :
    (0 : ℚ) < 1
    ∧ ((SimTime.new 0 10 1).terminates
      ∧ ∀ s : SimTime, s.reset = SimTime.new s.start_time s.end_time s.delta_t) :=
  ⟨by norm_num, simtime_finite_of_pos_delta 0 10 1 (by norm_num)⟩

lemma stateAfter_zero_delta : ∀ (n k : ℕ),
    stateAfter (SimTime.mk 0 k 0 0 1) n = some (SimTime.mk 0 (k + n) 0 0 1) := by
  intro n
  induction n with
  | zero => intro k; simp [stateAfter]
  | succ n ih =>
    intro k
    have hnext : (SimTime.mk 0 k 0 0 1).next =
        some ((k + 1, 0), SimTime.mk 0 (k + 1) 0 0 1) := by
      have h01 : (0 : ℚ) < 1 := by norm_num
      simp [SimTime.next, SimTime.nextstate, h01]
    have : stateAfter (SimTime.mk 0 k 0 0 1) (n + 1) =
        stateAfter (SimTime.mk 0 (k + 1) 0 0 1) n := by
      simp [stateAfter, hnext]
    rw [this, ih (k + 1)]
    have : k + 1 + n = k + (n + 1) := by omega
    rw [this]

/-- C7 counterexample: the constructor accepts a zero step size, and the
resulting clock new(0, 1, 0) never exhausts — its tick sequence is infinite,
refuting finiteness for every accepted argument triple. -/
theorem simtime_zero_delta_diverges_cex : ¬ (SimTime.new 0 1 0).terminates := by
  rintro ⟨n, hn⟩
  have h := stateAfter_zero_delta n 0
  have hnew : SimTime.new 0 1 0 = SimTime.mk 0 0 0 0 1 := rfl
  rw [hnew, h] at hn
  exact Option.noConfusion hn

/-- One observable call of the scheduler on a registered model or recorder:
`initM i` / `initR i` are initialize calls, `stepM k i` / `stepR k i` are
nextstate calls for tick `k`, `finM i` / `finR i` are finalize calls; `i` is
the registration index. -/
inductive SimEvent where
  | initM : ℕ → SimEvent
  | initR : ℕ → SimEvent
  | stepM : ℕ → ℕ → SimEvent
  | stepR : ℕ → ℕ → SimEvent
  | finM : ℕ → SimEvent
  | finR : ℕ → SimEvent
deriving DecidableEq

/-- Rust `SimSystem::nextstate` for tick `k`: every model in registration order,
then every recorder. -/
def sysNextstate (k nm nr : ℕ) : List SimEvent :=
  (List.range nm).map (SimEvent.stepM k) ++ (List.range nr).map (SimEvent.stepR k)

/-- The `while let Some(..) = self.sim_time.next()` loop of `SimSystem::run`,
with explicit fuel (the Rust loop has no structural bound). -/
def runLoop (nm nr : ℕ) : SimTime → ℕ → List SimEvent
  | _, 0 => []
  | s, fuel + 1 =>
    match s.next with
    | none => []
    | some (st, s2) => sysNextstate st.1 nm nr ++ runLoop nm nr s2 fuel

/-- Rust `SimSystem::initialize`: clock reset, then initialize every model in
registration order, then every recorder. -/
def initEvents (nm nr : ℕ) : List SimEvent :=
  (List.range nm).map SimEvent.initM ++ (List.range nr).map SimEvent.initR

/-- Rust `SimSystem::finalize`: finalize every model in registration order, then
every recorder. -/
def finEvents (nm nr : ℕ) : List SimEvent :=
  (List.range nm).map SimEvent.finM ++ (List.range nr).map SimEvent.finR

/-- Rust `SimSystem::run`: the sequence of model/recorder calls it performs —
initialization (which also resets the clock), the tick loop, finalization. -/
def runTrace (s : SimTime) (nm nr fuel : ℕ) : List SimEvent :=
  initEvents nm nr ++ runLoop nm nr s.reset fuel ++ finEvents nm nr

lemma range_succ_bind {α : Type} (n : ℕ) (f : ℕ → List α) :
    (List.range (n + 1)).flatMap f = f 0 ++ (List.range n).flatMap (fun k => f (k + 1)) := by
  rw [List.range_succ_eq_map]
  simp [List.flatMap_cons, List.flatMap_map, Function.comp]

lemma runLoop_eq : ∀ (fuel : ℕ) (s : SimTime) (nm nr : ℕ), 0 < s.delta_t →
    ticksOf s ≤ fuel →
    runLoop nm nr s fuel =
      (List.range (ticksOf s)).flatMap (fun k => sysNextstate (s.step + k + 1) nm nr) := by
  intro fuel
  induction fuel with
  | zero =>
    intro s nm nr hd hf
    have : ticksOf s = 0 := by omega
    simp [runLoop, this]
  | succ fuel ih =>
    intro s nm nr hd hf
    by_cases h : s.time < s.end_time
    · have hnext : s.next = some (((s.nextstate).step, (s.nextstate).time), s.nextstate) := by
        simp [SimTime.next, h]
      obtain ⟨T, hT⟩ : ∃ T, ticksOf s = T + 1 :=
        ⟨ticksOf s - 1, by have := ticksOf_pos hd h; omega⟩
      have hdec : ticksOf s.nextstate = T := by
        have := ticksOf_nextstate hd h
        omega
      have hloop : runLoop nm nr s (fuel + 1) =
          sysNextstate (s.step + 1) nm nr ++ runLoop nm nr s.nextstate fuel := by
        simp [runLoop, hnext, SimTime.nextstate]
      rw [hloop, ih s.nextstate nm nr hd (by omega), hdec, hT]
      rw [range_succ_bind]
      have harith : ∀ k : ℕ, s.nextstate.step + k + 1 = s.step + (k + 1) + 1 := by
        intro k
        have hstep : s.nextstate.step = s.step + 1 := rfl
        omega
      simp only [harith, Nat.add_zero]
    · have hnext : s.next = none := by simp [SimTime.next, h]
      have : ticksOf s = 0 := ticksOf_eq_zero hd h
      simp [runLoop, hnext, this]

/-- C2: `run()` first initializes every model then every recorder, then for
each clock tick k (in increasing order) calls nextstate on every model in
registration order followed by every recorder, and finally — once the clock
is exhausted — finalizes every model then every recorder. The flat trace
equation also shows every tick-k call precedes every tick-(k+1) call. -/
theorem run_call_order (nm nr fuel : ℕ) (s : SimTime) (hd : 0 < s.delta_t)
    (hf : ticksOf s.reset ≤ fuel) :
    runTrace s nm nr fuel =
      initEvents nm nr
      ++ (List.range (ticksOf s.reset)).flatMap (fun k => sysNextstate (k + 1) nm nr)
      ++ finEvents nm nr := by
  unfold runTrace
  rw [runLoop_eq fuel s.reset nm nr hd hf]
  have hstep : (s.reset).step = 0 := rfl
  simp only [hstep, Nat.zero_add]

/-- Witness for C2 at the concrete system: clock new(0, 2, 1), two models,
one recorder, fuel 2. -/
theorem run_call_order_witness :
    runTrace (SimTime.new 0 2 1) 2 1 2 =
      initEvents 2 1
      ++ (List.range (ticksOf (SimTime.new 0 2 1).reset)).flatMap (fun k => sysNextstate (k + 1) 2 1)
      ++ finEvents 2 1 :=
  run_call_order 2 1 2 (SimTime.new 0 2 1) (by norm_num [SimTime.new])
    (by norm_num [ticksOf, SimTime.reset, SimTime.new])

/-- Read every slot of a reference-bus through its binding (`SigTrait::val` on
each slot, in index order); `none` models the panic on any unbound slot. -/
def readVals : List RefSignal → Store → Option (List ℚ)
  | [], _ => some []
  | r :: rest, st =>
    match r.sig with
    | none => none
    | some c =>
      match readVals rest st with
      | none => none
      | some vs => some (st c :: vs)

/-- Copy a value list into the cells of a list of owned signals, in index
order (one `set_val` per pair, extra elements on either side ignored). -/
def copyList : List Signal → List ℚ → Store → Store
  | [], _, st => st
  | _ :: _, [], st => st
  | sg :: rest, v :: vrest, st => copyList rest vrest (updStore st sg.cell v)

/-- Modelled from the spec: `BusCore::copy_val_from_bus` is called by
`SubSystem::nextstate` but its definition is not among the provided sources.
Per the spec, the values of the source bus are copied element-wise, in index
order, into the destination bus (the subsystem constructor builds both buses
from the same signal definitions, so index order and name order agree). The
caller supplies the already-read source values. -/
def BusCore.copy_val_from_bus (dst : Bus) (vals : List ℚ) (st : Store) : Store :=
  copyList dst.signals vals st

/-- Rust `SubSystem`: composite model owning an input reference-bus, an input
buffer bus, an output bus, an output buffer reference-bus, and its internal
models. An internal model is its `nextstate` effect on the store. -/
structure SubSystem where
  inbus : RefBus
  inbus_buf : Bus
  outbus : Bus
  outbus_buf : RefBus
  models : List (Store → Store)
  delta_t : ℚ

/-- Rust `SubSystem::nextstate`: copy the externally-bound input bus into the input
buffer, step every internal model in registration order, then copy the output
buffer (which references internal output cells) into the externally-visible
output bus. `none` models a panic on reading an unbound slot. -/
def SubSystem.nextstate (s : SubSystem) (st : Store) : Option Store :=
  match readVals s.inbus.signals st with
  | none => none
  | some invals =>
    match readVals s.outbus_buf.signals
        (s.models.foldl (fun sigma m => m sigma) (BusCore.copy_val_from_bus s.inbus_buf invals st)) with
    | none => none
    | some outvals =>
      some (BusCore.copy_val_from_bus s.outbus outvals
        (s.models.foldl (fun sigma m => m sigma) (BusCore.copy_val_from_bus s.inbus_buf invals st)))

/-- Render a connect outcome as the `anyhow::Result` the Rust caller sees. -/
def cOutErr : COut → Except String Unit
  | COut.ok => Except.ok ()
  | COut.lenMismatch => Except.error "length mismatch"
  | COut.alreadyBound d sn => Except.error ("already connected: " ++ d ++ " <- " ++ sn)
  | COut.notFound ds ss =>
    Except.error ("signals not found: " ++ String.intercalate ", " ds ++ " / "
      ++ String.intercalate ", " ss)
  | COut.panicked => Except.error "panicked"

/-- Rust `SubSystem::connect_inbus`: wires a target internal model's input bus to
the subsystem's input buffer; an absent input interface on the target is an
error. On success returns the updated target input bus. -/
def SubSystem.connect_inbus (s : SubSystem) (target_in : Option RefBus)
    (srclist dstlist : List String) : Except String RefBus :=
  match target_in with
  | some target_inbus =>
    match cOutErr (RefBus.connect_to target_inbus s.inbus_buf srclist dstlist).1 with
    | Except.ok _ => Except.ok (RefBus.connect_to target_inbus s.inbus_buf srclist dstlist).2
    | Except.error e => Except.error e
  | none => Except.error "no input interface on the target model"

/-- Rust `SubSystem::connect_outbus`: wires the subsystem's output buffer to a
target internal model's output bus; an absent output interface on the target
is silently skipped (`if let Some` with no else) and the call reports
success. -/
def SubSystem.connect_outbus (s : SubSystem) (target_out : Option Bus)
    (srclist dstlist : List String) : Except String SubSystem :=
  match target_out with
  | some target_outbus =>
    match cOutErr (RefBus.connect_to s.outbus_buf target_outbus srclist dstlist).1 with
    | Except.ok _ => Except.ok { s with outbus_buf := (RefBus.connect_to s.outbus_buf target_outbus srclist dstlist).2 }
    | Except.error e => Except.error e
  | none => Except.ok s

/-- C10: the two directions of the composite wiring API treat a missing
interface asymmetrically — `connect_outbus` on a target with no output
interface returns success with the subsystem unchanged (nothing bound),
while `connect_inbus` on a target with no input interface returns an error. -/
theorem subsystem_interface_asymmetry (s : SubSystem) (srclist dstlist : List String) :
    s.connect_outbus none srclist dstlist = Except.ok s
    ∧ s.connect_inbus none srclist dstlist =
        Except.error "no input interface on the target model" := by
  exact ⟨rfl, rfl⟩

lemma readVals_get : ∀ (l : List RefSignal) (st : Store) (vs : List ℚ),
    readVals l st = some vs →
    ∀ (j : ℕ) (r : RefSignal) (c : ℕ), l.get? j = some r → r.sig = some c →
      vs.get? j = some (st c) := by
  intro l
  induction l with
  | nil => intro st vs _ j r c hj
           simp [List.get?] at hj
  | cons r0 rest ih =>
    intro st vs hvs j r c hj hc
    cases hsig : r0.sig with
    | none => rw [readVals, hsig] at hvs; exact absurd hvs (by simp)
    | some c0 =>
      cases hrest : readVals rest st with
      | none => rw [readVals, hsig, hrest] at hvs; exact absurd hvs (by simp)
      | some vs0 =>
        rw [readVals, hsig, hrest] at hvs
        cases hvs
        cases j with
        | zero =>
          simp only [List.get?] at hj
          cases hj
          rw [hsig] at hc
          cases hc
          rfl
        | succ j =>
          simp only [List.get?] at hj
          exact ih st vs0 hrest j r c hj hc

lemma copyList_notin : ∀ (sigs : List Signal) (vals : List ℚ) (st : Store) (c : ℕ),
    c ∉ sigs.map Signal.cell → copyList sigs vals st c = st c := by
  intro sigs
  induction sigs with
  | nil => intro vals st c _; cases vals <;> rfl
  | cons sg rest ih =>
    intro vals st c hc
    cases vals with
    | nil => rfl
    | cons v vrest =>
      simp only [List.map, List.mem_cons, not_or] at hc
      rw [copyList, ih vrest _ c (by simpa using hc.2)]
      simp [updStore, hc.1]

lemma copyList_at : ∀ (sigs : List Signal) (vals : List ℚ) (st : Store) (j : ℕ)
    (sigj : Signal) (vj : ℚ),
    (sigs.map Signal.cell).Nodup → sigs.get? j = some sigj → vals.get? j = some vj →
    copyList sigs vals st sigj.cell = vj := by
  intro sigs
  induction sigs with
  | nil => intro vals st j sigj vj _ hj; simp [List.get?] at hj
  | cons sg rest ih =>
    intro vals st j sigj vj hnd hj hv
    cases vals with
    | nil => simp [List.get?] at hv
    | cons v vrest =>
      simp only [List.map, List.nodup_cons] at hnd
      cases j with
      | zero =>
        simp only [List.get?] at hj hv
        injection hj with hj2
        injection hv with hv2
        subst hj2
        subst hv2
        rw [copyList, copyList_notin rest vrest _ sg.cell hnd.1]
        simp [updStore]
      | succ j =>
        simp only [List.get?] at hj hv
        exact ih vrest _ j sigj vj hnd.2 hj hv

/-- C4: buffer-copy transparency of the composite model. If slot `j` of the
output buffer is bound to an internal model's output cell `c`, the output
bus's own cells are pairwise distinct and do not alias `c`, and one
`nextstate` call on the composite completes (no unbound slot), then after
that call the value on the composite's externally-visible output bus at
index `j` equals the internal model's output signal value. -/
theorem subsystem_buffer_transparency (s : SubSystem) (st st2out : Store) (j : ℕ)
    (slotj : RefSignal) (c : ℕ) (sigj : Signal)
    (hslot : s.outbus_buf.signals.get? j = some slotj)
    (hc : slotj.sig = some c)
    (hsig : s.outbus.signals.get? j = some sigj)
    (hnd : (s.outbus.signals.map Signal.cell).Nodup)
    (hnotin : c ∉ s.outbus.signals.map Signal.cell)
    (hrun : s.nextstate st = some st2out) :
    st2out sigj.cell = st2out c := by
  unfold SubSystem.nextstate at hrun
  cases hin : readVals s.inbus.signals st with
  | none => simp [hin] at hrun
  | some invals =>
    cases hout : readVals s.outbus_buf.signals
        (s.models.foldl (fun sigma m => m sigma)
          (BusCore.copy_val_from_bus s.inbus_buf invals st)) with
    | none => simp [hin, hout] at hrun
    | some outvals =>
      simp only [hin, hout, Option.some.injEq] at hrun
      have hvj : outvals.get? j =
          some ((s.models.foldl (fun sigma m => m sigma)
            (BusCore.copy_val_from_bus s.inbus_buf invals st)) c) :=
        readVals_get s.outbus_buf.signals _ outvals hout j slotj c hslot hc
      have h1 : st2out sigj.cell =
          (s.models.foldl (fun sigma m => m sigma)
            (BusCore.copy_val_from_bus s.inbus_buf invals st)) c := by
        rw [← hrun]
        exact copyList_at s.outbus.signals outvals _ j sigj _ hnd hsig hvj
      have h2 : st2out c =
          (s.models.foldl (fun sigma m => m sigma)
            (BusCore.copy_val_from_bus s.inbus_buf invals st)) c := by
        rw [← hrun]
        exact copyList_notin s.outbus.signals outvals _ c hnotin
      rw [h1, h2]

/-- Witness for C4 at a one-signal composite: the internal model writes 42
into its output cell 5, the output buffer slot references cell 5, and the
external output bus owns cell 9. -/
theorem subsystem_buffer_transparency_witness :
    updStore (updStore (fun _ => (0 : ℚ)) 5 42) 9 42 (Signal.mk "o" "A" 9).cell =
      updStore (updStore (fun _ => (0 : ℚ)) 5 42) 9 42 5 :=
  subsystem_buffer_transparency
    { inbus := BusCore.mk [] [],
      inbus_buf := BusCore.mk [] [],
      outbus := BusCore.mk [Signal.mk "o" "A" 9] [("o", 0)],
      outbus_buf := BusCore.mk [RefSignal.mk "o" "A" (some 5)] [("o", 0)],
      models := [fun sigma => updStore sigma 5 42],
      delta_t := 1 }
    (fun _ => 0) (updStore (updStore (fun _ => (0 : ℚ)) 5 42) 9 42)
    0 (RefSignal.mk "o" "A" (some 5)) 5 (Signal.mk "o" "A" 9)
    rfl rfl rfl (by decide) (by decide) rfl

/-- Well-formedness of a bus keytable: every recorded index is in range and
no two names share an index. `BusCore::push` maintains this invariant. -/
def keytableWF {T : Type} (b : BusCore T) : Prop :=
  (∀ p ∈ b.keytable, p.2 < b.signals.length) ∧ (b.keytable.map Prod.snd).Nodup

/-- Source names of the pairs whose source name does not resolve. -/
def srcNotFound (srcbus : Bus) (pairs : List (String × String)) : List String :=
  (pairs.filter (fun p => (srcbus.get_by_name p.1).isNone)).map Prod.fst

/-- Destination names of the pairs whose source resolves but whose destination
name does not. -/
def dstNotFound (srcbus : Bus) (kt : List (String × ℕ)) (pairs : List (String × String)) :
    List String :=
  (pairs.filter (fun p => (srcbus.get_by_name p.1).isSome && (lookupKey kt p.2).isNone)).map Prod.snd

/-- The pairs whose two names both resolve. -/
def resolvedPairs (srcbus : Bus) (kt : List (String × ℕ)) (pairs : List (String × String)) :
    List (String × String) :=
  pairs.filter (fun p => (srcbus.get_by_name p.1).isSome && (lookupKey kt p.2).isSome)

/-- Bind one resolved pair: the destination slot is pointed at the source
signal's cell. -/
def bindOne (srcbus : Bus) (b : RefBus) (p : String × String) : RefBus :=
  match srcbus.get_by_name p.1 with
  | some s =>
    match lookupKey b.keytable p.2 with
    | some i =>
      match b.signals.get? i with
      | some slot => setSlot b i { slot with sig := some s.cell }
      | none => b
    | none => b
  | none => b

/-- Bind every resolved pair, in call order. -/
def applyBinds (srcbus : Bus) (b : RefBus) (pairs : List (String × String)) : RefBus :=
  pairs.foldl (bindOne srcbus) b

/-- The outcome `connect_to` reports from the two not-found lists. -/
def mkOut (ds ss : List String) : COut :=
  if ss.length > 0 ∨ ds.length > 0 then COut.notFound ds ss else COut.ok

lemma sigTrait_signal_sig (s : Signal) : SigTrait.sig s = some s.cell := rfl

lemma lookupKey_mem_snd : ∀ (kt : List (String × ℕ)) (a : String) (i : ℕ),
    lookupKey kt a = some i → i ∈ kt.map Prod.snd := by
  intro kt
  induction kt with
  | nil => intro a i h; simp [lookupKey] at h
  | cons p rest ih =>
    intro a i h
    rw [lookupKey] at h
    by_cases hk : p.1 = a
    · rw [if_pos hk] at h
      injection h with h2
      simp [h2]
    · rw [if_neg hk] at h
      simp [ih a i h]

lemma lookupKey_inj : ∀ (kt : List (String × ℕ)), (kt.map Prod.snd).Nodup →
    ∀ (a b : String) (i : ℕ), lookupKey kt a = some i → lookupKey kt b = some i → a = b := by
  intro kt
  induction kt with
  | nil => intro _ a b i ha; simp [lookupKey] at ha
  | cons p rest ih =>
    intro hnd a b i ha hb
    simp only [List.map, List.nodup_cons] at hnd
    rw [lookupKey] at ha hb
    by_cases hka : p.1 = a
    · rw [if_pos hka] at ha
      injection ha with ha2
      by_cases hkb : p.1 = b
      · rw [← hka, ← hkb]
      · rw [if_neg hkb] at hb
        exact absurd (lookupKey_mem_snd rest b i hb) (ha2 ▸ hnd.1)
    · rw [if_neg hka] at ha
      by_cases hkb : p.1 = b
      · rw [if_pos hkb] at hb
        injection hb with hb2
        exact absurd (lookupKey_mem_snd rest a i ha) (hb2 ▸ hnd.1)
      · rw [if_neg hkb] at hb
        exact ih hnd.2 a b i ha hb

lemma lookupKey_mem_pair : ∀ (kt : List (String × ℕ)) (a : String) (i : ℕ),
    lookupKey kt a = some i → (a, i) ∈ kt := by
  intro kt
  induction kt with
  | nil => intro a i h; simp [lookupKey] at h
  | cons p rest ih =>
    intro a i h
    rw [lookupKey] at h
    by_cases hk : p.1 = a
    · rw [if_pos hk] at h
      injection h with h2
      have hp : p = (a, i) := by
        cases p
        simp only at hk h2
        rw [hk, h2]
      rw [hp]
      exact List.mem_cons_self _ _
    · rw [if_neg hk] at h
      exact List.mem_cons_of_mem _ (ih a i h)

lemma connectLoop_characterization (srcbus : Bus) :
    ∀ (pairs : List (String × String)) (self : RefBus) (nfS nfD : List String),
      keytableWF self →
      (∀ p ∈ pairs, ((self.get_by_name p.2).all fun slot => slot.sig.isNone) = true) →
      (pairs.map Prod.snd).Nodup →
      connectLoop srcbus self pairs nfS nfD =
        (mkOut (nfD ++ dstNotFound srcbus self.keytable pairs)
               (nfS ++ srcNotFound srcbus pairs),
         applyBinds srcbus self (resolvedPairs srcbus self.keytable pairs)) := by
  intro pairs
  induction pairs with
  | nil =>
    intro self nfS nfD _ _ _
    simp only [connectLoop, srcNotFound, dstNotFound, resolvedPairs, applyBinds,
      List.filter_nil, List.map_nil, List.append_nil, List.foldl_nil, mkOut]
    split <;> rfl
  | cons p rest ih =>
    obtain ⟨srcName, dstName⟩ := p
    intro self nfS nfD hwf hunb hnd
    simp only [List.map, List.nodup_cons] at hnd
    cases hs : srcbus.get_by_name srcName with
    | none =>
      have hloop : connectLoop srcbus self ((srcName, dstName) :: rest) nfS nfD =
          connectLoop srcbus self rest (nfS ++ [srcName]) nfD := by
        simp only [connectLoop, hs]
      rw [hloop, ih self (nfS ++ [srcName]) nfD hwf
        (fun q hq => hunb q (List.mem_cons_of_mem _ hq)) hnd.2]
      have hsrc : srcNotFound srcbus ((srcName, dstName) :: rest) =
          srcName :: srcNotFound srcbus rest := by
        simp [srcNotFound, List.filter_cons, hs]
      have hdst : dstNotFound srcbus self.keytable ((srcName, dstName) :: rest) =
          dstNotFound srcbus self.keytable rest := by
        simp [dstNotFound, List.filter_cons, hs]
      have hres : resolvedPairs srcbus self.keytable ((srcName, dstName) :: rest) =
          resolvedPairs srcbus self.keytable rest := by
        simp [resolvedPairs, List.filter_cons, hs]
      rw [hsrc, hdst, hres]
      simp [List.append_assoc]
    | some s =>
      cases hdk : lookupKey self.keytable dstName with
      | none =>
        have hloop : connectLoop srcbus self ((srcName, dstName) :: rest) nfS nfD =
            connectLoop srcbus self rest nfS (nfD ++ [dstName]) := by
          simp only [connectLoop, hs, hdk]
        rw [hloop, ih self nfS (nfD ++ [dstName]) hwf
          (fun q hq => hunb q (List.mem_cons_of_mem _ hq)) hnd.2]
        have hsrc : srcNotFound srcbus ((srcName, dstName) :: rest) =
            srcNotFound srcbus rest := by
          simp [srcNotFound, List.filter_cons, hs]
        have hdst : dstNotFound srcbus self.keytable ((srcName, dstName) :: rest) =
            dstName :: dstNotFound srcbus self.keytable rest := by
          simp [dstNotFound, List.filter_cons, hs, hdk]
        have hres : resolvedPairs srcbus self.keytable ((srcName, dstName) :: rest) =
            resolvedPairs srcbus self.keytable rest := by
          simp [resolvedPairs, List.filter_cons, hs, hdk]
        rw [hsrc, hdst, hres]
        simp [List.append_assoc]
      | some i =>
        have hlt : i < self.signals.length :=
          hwf.1 (dstName, i) (lookupKey_mem_pair self.keytable dstName i hdk)
        obtain ⟨slot, hslot⟩ : ∃ slot, self.signals.get? i = some slot :=
          ⟨self.signals.get ⟨i, hlt⟩, List.get?_eq_get hlt⟩
        have hunbp := hunb (srcName, dstName) (List.mem_cons_self _ _)
        simp only [BusCore.get_by_name, hdk, hslot] at hunbp
        have hsig : slot.sig = none := by
          simpa [Option.isNone_iff_eq_none] using hunbp
        have hloop : connectLoop srcbus self ((srcName, dstName) :: rest) nfS nfD =
            connectLoop srcbus (setSlot self i { slot with sig := some s.cell }) rest nfS nfD := by
          simp only [connectLoop, hs, hdk, hslot, hsig, sigTrait_signal_sig]
        have hkt : (setSlot self i { slot with sig := some s.cell }).keytable =
            self.keytable := rfl
        have hwf2 : keytableWF (setSlot self i { slot with sig := some s.cell }) := by
          constructor
          · intro q hq
            rw [hkt] at hq
            have := hwf.1 q hq
            simpa [setSlot, List.length_set] using this
          · rw [hkt]
            exact hwf.2
        have hunb2 : ∀ q ∈ rest,
            (((setSlot self i { slot with sig := some s.cell }).get_by_name q.2).all
              fun sl => sl.sig.isNone) = true := by
          intro q hq
          have horig := hunb q (List.mem_cons_of_mem _ hq)
          cases hql : lookupKey self.keytable q.2 with
          | none => simp [BusCore.get_by_name, hkt, hql]
          | some j =>
            simp only [BusCore.get_by_name, hql] at horig
            have hne : i ≠ j := by
              intro heq
              apply hnd.1
              have hq2 : q.2 = dstName :=
                lookupKey_inj self.keytable hwf.2 q.2 dstName i (by rw [heq]; exact hql) hdk
              rw [← hq2]
              exact List.mem_map_of_mem Prod.snd hq
            have hget : (setSlot self i { slot with sig := some s.cell }).signals.get? j =
                self.signals.get? j := by
              simp [setSlot, List.get?_eq_getElem?, List.getElem?_set_ne hne]
            simp only [BusCore.get_by_name, hkt, hql, hget]
            exact horig
        rw [hloop, ih (setSlot self i { slot with sig := some s.cell }) nfS nfD hwf2 hunb2 hnd.2]
        have hsrc : srcNotFound srcbus ((srcName, dstName) :: rest) =
            srcNotFound srcbus rest := by
          simp [srcNotFound, List.filter_cons, hs]
        have hdst : dstNotFound srcbus self.keytable ((srcName, dstName) :: rest) =
            dstNotFound srcbus self.keytable rest := by
          simp [dstNotFound, List.filter_cons, hs, hdk]
        have hres : resolvedPairs srcbus self.keytable ((srcName, dstName) :: rest) =
            (srcName, dstName) :: resolvedPairs srcbus self.keytable rest := by
          simp [resolvedPairs, List.filter_cons, hs, hdk]
        have hbind : bindOne srcbus self (srcName, dstName) =
            setSlot self i { slot with sig := some s.cell } := by
          simp only [bindOne, hs, hdk, hslot]
        rw [hkt, hsrc, hdst, hres]
        have happ : applyBinds srcbus self
            ((srcName, dstName) :: resolvedPairs srcbus self.keytable rest) =
            applyBinds srcbus (setSlot self i { slot with sig := some s.cell })
              (resolvedPairs srcbus self.keytable rest) := by
          rw [applyBinds, List.foldl_cons, hbind]
          rfl
        rw [happ]

/-- C1 amended: on a reference-bus whose destination slots (named without
repetition) are all unbound, a connect call with equal-length name lists
either succeeds (every name resolved) or fails with the consolidated
not-found error listing exactly the unresolved source names and the
unresolved destination names among source-resolved pairs; in both cases the
resulting bus binds exactly the pairs whose two names both resolve — bindings
made before the failure point are retained, not rolled back. -/
theorem connect_to_failure_semantics (srcbus : Bus) (self : RefBus)
    (srclist dstlist : List String)
    (hlen : srclist.length = dstlist.length)
    (hwf : keytableWF self)
    (hunb : ∀ p ∈ srclist.zip dstlist,
      ((self.get_by_name p.2).all fun slot => slot.sig.isNone) = true)
    (hnd : dstlist.Nodup) :
    RefBus.connect_to self srcbus srclist dstlist =
      (mkOut (dstNotFound srcbus self.keytable (srclist.zip dstlist))
             (srcNotFound srcbus (srclist.zip dstlist)),
       applyBinds srcbus self (resolvedPairs srcbus self.keytable (srclist.zip dstlist))) := by
  unfold RefBus.connect_to
  rw [if_neg (by omega : ¬ srclist.length ≠ dstlist.length)]
  have hndz : ((srclist.zip dstlist).map Prod.snd).Nodup := by
    rw [List.map_snd_zip srclist dstlist (le_of_eq hlen.symm)]
    exact hnd
  have := connectLoop_characterization srcbus (srclist.zip dstlist) self [] [] hwf hunb hndz
  simpa using this

/-- Witness for C1 (amended) at the concrete failing call of the
counterexample: source bus with only `s1`, destinations `r1`, `r2` unbound,
srclist `[s1, zz]`, dstlist `[r1, r2]`. -/
theorem connect_to_failure_semantics_witness :
    RefBus.connect_to
        (BusCore.mk [RefSignal.mk "r1" "A" none, RefSignal.mk "r2" "A" none]
          [("r1", 0), ("r2", 1)])
        (BusCore.mk [Signal.mk "s1" "A" 0] [("s1", 0)] : Bus)
        ["s1", "zz"] ["r1", "r2"] =
      (mkOut
        (dstNotFound (BusCore.mk [Signal.mk "s1" "A" 0] [("s1", 0)])
          [("r1", 0), ("r2", 1)] (["s1", "zz"].zip ["r1", "r2"]))
        (srcNotFound (BusCore.mk [Signal.mk "s1" "A" 0] [("s1", 0)])
          (["s1", "zz"].zip ["r1", "r2"])),
       applyBinds (BusCore.mk [Signal.mk "s1" "A" 0] [("s1", 0)])
        (BusCore.mk [RefSignal.mk "r1" "A" none, RefSignal.mk "r2" "A" none]
          [("r1", 0), ("r2", 1)])
        (resolvedPairs (BusCore.mk [Signal.mk "s1" "A" 0] [("s1", 0)])
          [("r1", 0), ("r2", 1)] (["s1", "zz"].zip ["r1", "r2"]))) :=
  connect_to_failure_semantics
    (BusCore.mk [Signal.mk "s1" "A" 0] [("s1", 0)])
    (BusCore.mk [RefSignal.mk "r1" "A" none, RefSignal.mk "r2" "A" none]
      [("r1", 0), ("r2", 1)])
    ["s1", "zz"] ["r1", "r2"]
    (by decide) (by unfold keytableWF; exact ⟨by decide, by decide⟩) (by decide) (by decide)
